import Mathlib

/-!
Verification development for the ReachInbox Onebox AI
ingestion / classification / reconciliation core.

Conventions of the shallow embedding:
* JS numbers are modelled as exact rationals (`ℚ`);
* JS strings are modelled as `String`, or as `List Char` where
  character-indexed operations (indexOf / lastIndexOf / substring) matter;
* the external generative-text service is modelled by an oracle giving the
  outcome of each call, and JSON.parse by an oracle partial parse function
  (`none` models a thrown exception);
* the external search store (Elasticsearch) is modelled as an association
  list keyed by document id, per its documented index / update / get
  semantics.
-/

/-- The fixed five-value category enumeration (`EmailCategory` in
`src/types/email.types.ts`). -/
inductive EmailCategory where
  | interested
  | meetingBooked
  | notInterested
  | spam
  | outOfOffice
  deriving DecidableEq, Repr

/-- The string value carried by each enum member of `EmailCategory`. -/
def EmailCategory.str : EmailCategory → String
  | .interested => "Interested"
  | .meetingBooked => "Meeting Booked"
  | .notInterested => "Not Interested"
  | .spam => "Spam"
  | .outOfOffice => "Out of Office"

/-- `Object.values(EmailCategory).includes(s)` followed by the cast
`s as EmailCategory`: recover the enum member from its string value,
`none` when the string is outside the closed enumeration. -/
def categoryOfString (s : String) : Option EmailCategory :=
  if s = "Interested" then some .interested
  else if s = "Meeting Booked" then some .meetingBooked
  else if s = "Not Interested" then some .notInterested
  else if s = "Spam" then some .spam
  else if s = "Out of Office" then some .outOfOffice
  else none

/-- The `Email` record of `src/types/email.types.ts`.  `subject` and `body`
are `List Char` because the summarizer and the feedback store index into
them character by character. -/
structure Email where
  id : String
  accountId : String
  messageId : String
  subject : List Char
  fromAddr : String
  toAddr : String
  date : Int
  body : List Char
  folder : String
  aiCategory : Option EmailCategory
  aiConfidence : Option ℚ
  aiReasoning : Option (List String)
  threadId : Option String
  summary : Option (List Char)
  deriving DecidableEq, Repr

/-- `AICategorizationResult` of `src/types/email.types.ts`; also the shape
returned by `getMainCategory`. -/
structure AICategorizationResult where
  category : EmailCategory
  confidence : ℚ
  reasoning : List String
  deriving DecidableEq, Repr

/-- Shape of the object produced by `JSON.parse` on a main-category model
response: `category` is a raw string still to be validated, `reasoning`
is `none` when the field is not an array (`Array.isArray` check). -/
structure ParsedMain where
  category : String
  confidence : ℚ
  reasoning : Option (List String)
  deriving DecidableEq, Repr

/-- Shape of the object produced by `JSON.parse` on a sentiment response. -/
structure ParsedSentiment where
  sentiment : String
  confidence : ℚ
  deriving DecidableEq, Repr

/-- Result of `getSentimentAnalysis`. -/
structure SentimentResult where
  sentiment : String
  confidence : ℚ
  deriving DecidableEq, Repr

/-- Shape of the object produced by `JSON.parse` on an intent response. -/
structure ParsedIntent where
  intent : String
  confidence : ℚ
  deriving DecidableEq, Repr

/-- Result of `getIntentClassification`. -/
structure IntentResult where
  intent : String
  confidence : ℚ
  deriving DecidableEq, Repr

/-- `Math.min` on JS numbers. -/
def jsMin (a b : ℚ) : ℚ := if a ≤ b then a else b

/-- `Math.max` on JS numbers. -/
def jsMax (a b : ℚ) : ℚ := if a ≤ b then b else a

/-- `Math.max(0, Math.min(1, x))`, the confidence clamp used by all three
response parsers in `ai.service.ts`. -/
def clamp01 (x : ℚ) : ℚ := jsMax 0 (jsMin 1 x)

/-- Index of the last occurrence of `c` in `l` (JS `String.lastIndexOf`,
with `none` for `-1`). -/
def lastIndexOf (c : Char) : List Char → Option Nat
  | [] => none
  | x :: xs =>
    match lastIndexOf c xs with
    | some i => some (i + 1)
    | none => if x = c then some 0 else none

/-- The defensive JSON extraction shared by the three response parsers in
`ai.service.ts`:
`jsonStart = text.indexOf('\x7b'); jsonEnd = text.lastIndexOf('\x7d') + 1;`
returning `text.substring(jsonStart, jsonEnd)` when
`jsonStart !== -1 && jsonEnd > jsonStart`, and `none` otherwise. -/
def extractJson (text : List Char) : Option (List Char) :=
  let jsonStart : Int :=
    match text.findIdx? (fun ch => ch = '\x7b') with
    | some i => (i : Int)
    | none => -1
  let jsonEnd : Int :=
    (match lastIndexOf '\x7d' text with
     | some i => (i : Int)
     | none => -1) + 1
  if jsonStart ≠ -1 ∧ jsonStart < jsonEnd then
    some ((text.take jsonEnd.toNat).drop jsonStart.toNat)
  else
    none

/-- Safe default of `getMainCategory` (`ai.service.ts` lines 208-213). -/
def mainCategoryDefault : AICategorizationResult :=
  ⟨.spam, 3/10, ["Invalid AI response format"]⟩

/-- `AIService.getMainCategory` (`ai.service.ts` lines 158-214), abstracted
over the model response `text` and the `JSON.parse` oracle `parse`
(`parse js = none` models a thrown parse exception, which propagates:
result `none`).  On successful parse the category string is validated
against the enumeration; the confidence is clamped into [0,1]; a
non-array `reasoning` becomes `[]`. -/
def getMainCategory (text : List Char)
    (parse : List Char → Option ParsedMain) : Option AICategorizationResult :=
  match extractJson text with
  | some jsonString =>
    match parse jsonString with
    | none => none
    | some p =>
      match categoryOfString p.category with
      | some c => some ⟨c, clamp01 p.confidence, p.reasoning.getD []⟩
      | none => some mainCategoryDefault
  | none => some mainCategoryDefault

/-- `AIService.getSentimentAnalysis` (`ai.service.ts` lines 216-253): the
parsed `sentiment` string is passed through as-is (no enumeration check);
the confidence is clamped; the no-brace fallback is Neutral/0.5. -/
def getSentimentAnalysis (text : List Char)
    (parse : List Char → Option ParsedSentiment) : Option SentimentResult :=
  match extractJson text with
  | some jsonString =>
    match parse jsonString with
    | none => none
    | some p => some ⟨p.sentiment, clamp01 p.confidence⟩
  | none => some ⟨"Neutral", 1/2⟩

/-- `AIService.getIntentClassification` (`ai.service.ts` lines 255-292):
the parsed `intent` string is passed through as-is (no enumeration
check); the confidence is clamped; the no-brace fallback is
Informational/0.5. -/
def getIntentClassification (text : List Char)
    (parse : List Char → Option ParsedIntent) : Option IntentResult :=
  match extractJson text with
  | some jsonString =>
    match parse jsonString with
    | none => none
    | some p => some ⟨p.intent, clamp01 p.confidence⟩
  | none => some ⟨"Informational", 1/2⟩

/-- First block of `combineModelResults` (`ai.service.ts` lines 304-314):
the sentiment-alignment adjustment, applied to the base confidence. -/
def sentimentAdjust (mainCategory : AICategorizationResult)
    (sentiment : SentimentResult) : ℚ × List String :=
  if sentiment.sentiment = "Positive" ∧ mainCategory.category = .interested then
    (jsMin 1 (mainCategory.confidence + 1/10),
     ["Sentiment analysis confirms positive sentiment"])
  else if sentiment.sentiment = "Negative" ∧ mainCategory.category = .notInterested then
    (jsMin 1 (mainCategory.confidence + 1/10),
     ["Sentiment analysis confirms negative sentiment"])
  else if sentiment.sentiment = "Automated" ∧ mainCategory.category = .outOfOffice then
    (jsMin 1 (mainCategory.confidence + 3/20),
     ["Sentiment analysis confirms automated response"])
  else
    (mainCategory.confidence, [])

/-- Second block of `combineModelResults` (`ai.service.ts` lines 316-323):
the intent-alignment adjustment, applied to the running pair `s1`. -/
def intentAdjust (mainCategory : AICategorizationResult) (intent : IntentResult)
    (s1 : ℚ × List String) : ℚ × List String :=
  if intent.intent = "Confirmation" ∧ mainCategory.category = .meetingBooked then
    (jsMin 1 (s1.1 + 1/10), s1.2 ++ ["Intent analysis confirms meeting confirmation"])
  else if intent.intent = "Rejection" ∧ mainCategory.category = .notInterested then
    (jsMin 1 (s1.1 + 1/10), s1.2 ++ ["Intent analysis confirms rejection"])
  else
    s1

/-- Third block of `combineModelResults` (`ai.service.ts` lines 325-333):
the spam special case, applied to the running pair `s2`. -/
def spamAdjust (mainCategory : AICategorizationResult)
    (sentiment : SentimentResult) (intent : IntentResult)
    (s2 : ℚ × List String) : ℚ × List String :=
  if mainCategory.category = .spam ∧ sentiment.sentiment = "Negative" ∧
      4/5 < sentiment.confidence ∧ intent.intent = "Informational" ∧
      7/10 < intent.confidence then
    (jsMin 1 (s2.1 + 3/20), s2.2 ++ ["Combined analysis confirms spam characteristics"])
  else
    s2

/-- `AIService.combineModelResults` (`ai.service.ts` lines 294-340): the
fusion rule.  `email` is taken (and ignored) exactly as in the source.
The three adjustment blocks run in source order, each clamped to at most
1.0 by `Math.min`, and each satisfied rule appends its fixed reasoning
string. -/
def combineModelResults (mainCategory : AICategorizationResult)
    (sentiment : SentimentResult) (intent : IntentResult) (_email : Email) :
    AICategorizationResult :=
  let s1 := sentimentAdjust mainCategory sentiment
  let s2 := intentAdjust mainCategory intent s1
  let s3 := spamAdjust mainCategory sentiment intent s2
  ⟨mainCategory.category, s3.1, mainCategory.reasoning ++ s3.2⟩

/-- Outcome of one full attempt of the try-block inside
`AIService.categorizeEmail` (the three model calls plus fusion):
`ok` carries the fused `finalResult`; `rateLimit` is an error whose
message contains `429`/`quota`, carrying the optional
"Please retry in Ns" duration; `otherError` is any other thrown error. -/
inductive CallOutcome where
  | ok (result : AICategorizationResult)
  | rateLimit (retryAfterSecs : Option ℚ)
  | otherError
  deriving Repr

/-- The retry-after value named by a rate-limit error, if any. -/
def raOf : CallOutcome → Option ℚ
  | .rateLimit ra => ra
  | _ => none

/-- `maxRetries = 3` in `AIService.categorizeEmail`. -/
def maxRetries : Nat := 3

/-- Terminal fallback on a non-rate-limit error or on a rate-limit error
with retries already exhausted (`ai.service.ts` lines 139-144). -/
def processingErrorResult : AICategorizationResult :=
  ⟨.spam, 1/5, ["AI processing error"]⟩

/-- Post-loop fallback of `categorizeEmail` (`ai.service.ts` lines
149-155); shown unreachable because the loop always returns. -/
def retryExceededResult : AICategorizationResult :=
  ⟨.spam, 1/10, ["Retry limit exceeded"]⟩

/-- The delay update in the catch-block of `categorizeEmail`
(`ai.service.ts` lines 123-131): when the error names an explicit
retry-after duration, `delayMs = Math.max(delayMs, retrySeconds*1000)`;
otherwise exponential backoff
`delayMs = Math.min(delayMs * 2 + Math.random() * 1000, 30000)`. -/
def nextDelay (delayMs : ℚ) (retryAfterSecs : Option ℚ) (jitterMs : ℚ) : ℚ :=
  match retryAfterSecs with
  | some s => jsMax delayMs (s * 1000)
  | none => jsMin (delayMs * 2 + jitterMs) 30000

/-- The `while (retries <= maxRetries)` loop of `categorizeEmail`,
abstracted over the outcome of each successive attempt (`attempts k` is
the outcome when the current retry counter is `k`) and over the jitter
drawn at each failure.  Returns the result together with the list of
delays awaited before each retry.  `fuel` counts the remaining loop
iterations permitted by the guard (`maxRetries + 1 - retries`); the
fuel-0 case is the post-loop fallback. -/
def catGo (attempts : Nat → CallOutcome) (jitter : Nat → ℚ) :
    Nat → Nat → ℚ → AICategorizationResult × List ℚ
  | 0, _, _ => (retryExceededResult, [])
  | fuel + 1, retries, delayMs =>
    match attempts retries with
    | .ok r => (r, [])
    | .rateLimit ra =>
      if retries < maxRetries then
        let d := nextDelay delayMs ra (jitter retries)
        let rest := catGo attempts jitter fuel (retries + 1) d
        (rest.1, d :: rest.2)
      else
        (processingErrorResult, [])
    | .otherError => (processingErrorResult, [])

/-- `AIService.categorizeEmail` (`ai.service.ts` lines 83-156): with an
invalid API key it returns the Spam/0.5 unavailability fallback without
calling the service; otherwise it runs the retry loop with the counter
at 0 and `delayMs = 1000`.  It never throws. -/
def categorizeEmailModel (isValidKey : Bool) (attempts : Nat → CallOutcome)
    (jitter : Nat → ℚ) : AICategorizationResult × List ℚ :=
  if isValidKey = false then
    (⟨.spam, 1/2, ["AI service unavailable"]⟩, [])
  else
    catGo attempts jitter (maxRetries + 1) 0 1000

/-- `requestLimit = 15` requests per window (`ai.service.ts` line 17). -/
def requestLimit : Nat := 15

/-- `requestWindow = 60000` milliseconds (`ai.service.ts` line 18). -/
def requestWindow : ℚ := 60000

/-- The rate-governor state of `AIService`: `requestCount` and
`lastRequestTime` (`ai.service.ts` lines 15-16; both start at 0). -/
structure RateState where
  requestCount : Nat
  lastRequestTime : ℚ
  deriving DecidableEq, Repr

/-- `AIService.checkRateLimit` (`ai.service.ts` lines 52-77).  Input is the
current state and `now = Date.now()`; output is the new state, the time
awaited (0 when admitted immediately), and the returned boolean (the
source returns `true` on every path — callers are delayed, never
rejected).  After a wait the source sets `lastRequestTime = Date.now()`,
modelled as `now + timeToWait`. -/
def checkRateLimit (s : RateState) (now : ℚ) : RateState × ℚ × Bool :=
  let s1 : RateState :=
    if requestWindow < now - s.lastRequestTime then ⟨0, now⟩ else s
  if s1.requestCount < requestLimit then
    (⟨s1.requestCount + 1, s1.lastRequestTime⟩, 0, true)
  else
    let timeToWait := requestWindow - (now - s1.lastRequestTime)
    if 0 < timeToWait then
      (⟨1, now + timeToWait⟩, timeToWait, true)
    else
      (s1, 0, true)

/-- The three-dot ellipsis literal appended by `simpleSummarize`. -/
def ellipsis : List Char := ['.', '.', '.']

/-- `const content = subject + ". " + body` in `AIService.simpleSummarize`. -/
def contentOf (subject body : List Char) : List Char :=
  subject ++ '.' :: ' ' :: body

/-- `AIService.simpleSummarize` (`ai.service.ts` lines 412-429), the local
summarization fallback: return the combined content unchanged when it is
at most 100 characters; otherwise take the first 100 characters, cut
back to the last space when one occurs at a positive index, and append
the ellipsis. -/
def simpleSummarize (body subject : List Char) : List Char :=
  let content := contentOf subject body
  if content.length ≤ 100 then content
  else
    let summary := content.take 100
    match lastIndexOf ' ' summary with
    | some lastSpace =>
      if 0 < lastSpace then summary.take lastSpace ++ ellipsis
      else summary ++ ellipsis
    | none => summary ++ ellipsis

/-- State of `ElasticsearchService`: the `isConnected` flag, whether the
index mapping has been created, and the contents of the backing store
(an association list keyed by document id, modelling the external
Elasticsearch index). -/
structure EsState where
  isConnected : Bool
  indexCreated : Bool
  docs : List (String × Email)
  deriving DecidableEq, Repr

/-- Document write keyed by id (the semantics of `client.index` with an
explicit `id`): replace the entry bearing this id, or append a new
entry. -/
def upsertDoc : List (String × Email) → String → Email → List (String × Email)
  | [], i, e => [(i, e)]
  | (k, v) :: rest, i, e =>
    if k = i then (i, e) :: rest else (k, v) :: upsertDoc rest i e

/-- Point lookup by id (the semantics of `client.get`; `none` models the
404 that `getEmailById` catches and turns into `null`). -/
def lookupId (docs : List (String × Email)) (i : String) : Option Email :=
  (docs.find? (fun p => p.1 = i)).map Prod.snd

/-- Number of stored documents bearing a given id. -/
def countId (docs : List (String × Email)) (i : String) : Nat :=
  (docs.filter (fun p => p.1 = i)).length

/-- The stored ids are pairwise distinct (the invariant the external store
maintains for document ids). -/
def keysNodup (docs : List (String × Email)) : Prop :=
  (docs.map Prod.fst).Nodup

/-- Partial update of the document bearing id `i` (the semantics of
`client.update`: a missing id raises, which the service catches leaving
the store unchanged — here the map is then the identity). -/
def updateDocAt (docs : List (String × Email)) (i : String)
    (f : Email → Email) : List (String × Email) :=
  docs.map (fun p => if p.1 = i then (p.1, f p.2) else p)

/-- `ElasticsearchService.initializeIndex` (`elasticsearch.service.ts`
lines 57-98): skipped when not connected; otherwise creates the index
mapping if absent (idempotent). -/
def initIndex (s : EsState) : EsState :=
  if s.isConnected = false then s
  else ⟨s.isConnected, true, s.docs⟩

/-- `ElasticsearchService.indexEmail` (`elasticsearch.service.ts` lines
100-117): skipped when not connected; otherwise an upsert of the whole
document keyed by `email.id`. -/
def indexEmail (s : EsState) (email : Email) : EsState :=
  if s.isConnected = false then s
  else ⟨s.isConnected, s.indexCreated, upsertDoc s.docs email.id email⟩

/-- `ElasticsearchService.searchEmails` (`elasticsearch.service.ts` lines
119-229): returns `[]` when not connected; otherwise issues the query to
the external client, whose response (or thrown error, also answered with
`[]`) is the `clientResp` oracle. -/
def searchEmails (s : EsState) (clientResp : Except Unit (List Email)) :
    List Email :=
  if s.isConnected = false then []
  else
    match clientResp with
    | Except.ok hits => hits
    | Except.error _ => []

/-- `ElasticsearchService.getEmailById` (`elasticsearch.service.ts` lines
231-252): `null` when not connected; otherwise a point lookup, with 404
and other errors also answered with `null`. -/
def getEmailById (s : EsState) (id : String) : Option Email :=
  if s.isConnected = false then none
  else lookupId s.docs id

/-- `ElasticsearchService.updateEmailAIResults` (`elasticsearch.service.ts`
lines 278-301): skipped when not connected; otherwise a partial update
of the aiCategory / aiConfidence / aiReasoning fields. -/
def updateEmailAIResults (s : EsState) (emailId : String)
    (aiCategory : EmailCategory) (aiConfidence : ℚ)
    (aiReasoning : List String) : EsState :=
  if s.isConnected = false then s
  else
    ⟨s.isConnected, s.indexCreated,
     updateDocAt s.docs emailId (fun e =>
       ⟨e.id, e.accountId, e.messageId, e.subject, e.fromAddr, e.toAddr,
        e.date, e.body, e.folder, some aiCategory, some aiConfidence,
        some aiReasoning, e.threadId, e.summary⟩)⟩

/-- `ElasticsearchService.updateEmailSummary` (`elasticsearch.service.ts`
lines 304-325): skipped when not connected; otherwise a partial update
of the summary field. -/
def updateEmailSummary (s : EsState) (emailId : String)
    (summary : List Char) : EsState :=
  if s.isConnected = false then s
  else
    ⟨s.isConnected, s.indexCreated,
     updateDocAt s.docs emailId (fun e =>
       ⟨e.id, e.accountId, e.messageId, e.subject, e.fromAddr, e.toAddr,
        e.date, e.body, e.folder, e.aiCategory, e.aiConfidence,
        e.aiReasoning, e.threadId, some summary⟩)⟩

/-- The per-item loop shared by `processUncategorizedEmails` and
`reprocessLowConfidenceEmails` (`scheduled.processor.ts`): categorize
each email and write the result back; a per-item failure
(`categorize e = .error`) is logged and the loop continues with the next
item.  Returns the final store state and the number of items
successfully processed. -/
def runItems (categorize : Email → Except Unit AICategorizationResult) :
    EsState → List Email → EsState × Nat
  | es, [] => (es, 0)
  | es, e :: rest =>
    match categorize e with
    | Except.error _ => runItems categorize es rest
    | Except.ok r =>
      let es2 := updateEmailAIResults es e.id r.category r.confidence r.reasoning
      let p := runItems categorize es2 rest
      (p.1, p.2 + 1)

/-- The per-item loop of `generateMissingSummaries`: summarize each email
and write the summary back, continuing past per-item failures. -/
def runSummaryItems (summarizer : Email → Except Unit (List Char)) :
    EsState → List Email → EsState × Nat
  | es, [] => (es, 0)
  | es, e :: rest =>
    match summarizer e with
    | Except.error _ => runSummaryItems summarizer es rest
    | Except.ok summ =>
      let es2 := updateEmailSummary es e.id summ
      let p := runSummaryItems summarizer es2 rest
      (p.1, p.2 + 1)

/-- `ScheduledProcessor.processUncategorizedEmails`
(`scheduled.processor.ts` lines 16-66).  `isProcessing` is the shared
busy flag; `fetched` is the outcome of the uncategorized-email search
(`.error` models a job-level throw inside the try-block, whose catch
falls into the `finally` that clears the flag).  Returns the final flag,
the final store state and the number of items processed. -/
def processUncategorizedEmails (isProcessing : Bool) (es : EsState)
    (fetched : Except Unit (List Email))
    (categorize : Email → Except Unit AICategorizationResult)
    (batchSize : Nat) : Bool × EsState × Nat :=
  if isProcessing then (isProcessing, es, 0)
  else
    match fetched with
    | Except.error _ => (false, es, 0)
    | Except.ok emails =>
      let p := runItems categorize es (emails.take batchSize)
      (false, p.1, p.2)

/-- `ScheduledProcessor.reprocessLowConfidenceEmails`
(`scheduled.processor.ts` lines 69-118): fetch all items, filter
client-side to defined confidence below the threshold, take the batch,
reclassify each. -/
def reprocessLowConfidenceEmails (isProcessing : Bool) (es : EsState)
    (fetched : Except Unit (List Email))
    (categorize : Email → Except Unit AICategorizationResult)
    (threshold : ℚ) (batchSize : Nat) : Bool × EsState × Nat :=
  if isProcessing then (isProcessing, es, 0)
  else
    match fetched with
    | Except.error _ => (false, es, 0)
    | Except.ok emails =>
      let lowConf := (emails.filter (fun e =>
        match e.aiConfidence with
        | some c => decide (c < threshold)
        | none => false)).take batchSize
      let p := runItems categorize es lowConf
      (false, p.1, p.2)

/-- `ScheduledProcessor.generateMissingSummaries`
(`scheduled.processor.ts` lines 121-164): fetch all items, filter
client-side to missing or empty summary, take the batch, summarize
each. -/
def generateMissingSummaries (isProcessing : Bool) (es : EsState)
    (fetched : Except Unit (List Email))
    (summarizer : Email → Except Unit (List Char))
    (batchSize : Nat) : Bool × EsState × Nat :=
  if isProcessing then (isProcessing, es, 0)
  else
    match fetched with
    | Except.error _ => (false, es, 0)
    | Except.ok emails =>
      let missing := (emails.filter (fun e =>
        match e.summary with
        | none => true
        | some l => l.isEmpty)).take batchSize
      let p := runSummaryItems summarizer es missing
      (false, p.1, p.2)

/-- The identifier derivation of `ImapService.processMessage`
(`qdrant.service.ts` line 603):
`id = accountId + "-" + seqno + "-" + (parsed.messageId || Date.now())`.
A missing or empty parsed message id is falsy, so the current timestamp
`nowMs` is substituted. -/
def makeEmailId (accountId : String) (seqno : Nat) (messageId : String)
    (nowMs : Nat) : String :=
  accountId ++ "-" ++ toString seqno ++ "-" ++
    (if messageId = "" then toString nowMs else messageId)

/-- One entry of the feedback log (`ai.service.ts` lines 434-442). -/
structure FeedbackRecord where
  emailId : String
  originalCategory : EmailCategory
  correctedCategory : EmailCategory
  timestamp : String
  emailSubject : List Char
  emailBody : List Char
  deriving DecidableEq, Repr

/-- `AIService.processUserFeedback` (`ai.service.ts` lines 432-461): append
one record to the feedback log, retaining the subject and the first 500
characters of the body (file I/O assumed to succeed; on an I/O error the
source leaves the log unchanged). -/
def processUserFeedback (emailId : String)
    (originalCategory correctedCategory : EmailCategory) (email : Email)
    (timestamp : String) (log : List FeedbackRecord) : List FeedbackRecord :=
  log ++ [⟨emailId, originalCategory, correctedCategory, timestamp,
           email.subject, email.body.take 500⟩]

/-- The `POST /:id/feedback` handler (`email.routes.ts` lines 115-140):
validate the corrected category against the enumeration (400 before any
append), then look the email up (404), then record the feedback (200).
Returns the HTTP status and the resulting feedback log. -/
def feedbackEndpoint (id : String) (correctedCategory : String)
    (emailLookup : Option Email) (timestamp : String)
    (log : List FeedbackRecord) : Nat × List FeedbackRecord :=
  match categoryOfString correctedCategory with
  | none => (400, log)
  | some cat =>
    match emailLookup with
    | none => (404, log)
    | some email =>
      (200, processUserFeedback id (email.aiCategory.getD .spam) cat email
              timestamp log)

/-- The closed sentiment enumeration named by the sentiment prompt
(Positive, Neutral, Negative, Automated). -/
def sentimentLabels : List String := ["Positive", "Neutral", "Negative", "Automated"]

/-- The closed intent enumeration named by the intent prompt
(Inquiry, Confirmation, Rejection, Informational, Automated). -/
def intentLabels : List String :=
  ["Inquiry", "Confirmation", "Rejection", "Informational", "Automated"]

/-- A concrete email used to instantiate hypotheses in witnesses. -/
def sampleEmail : Email :=
  ⟨"account1-7-msg1", "account1", "msg1", "Hi".toList, "a@x.com", "b@x.com",
   0, "hello there".toList, "INBOX", none, none, none, none, none⟩

/-- A second concrete email bearing the same id as `sampleEmail` but
different field values. -/
def sampleEmail2 : Email :=
  ⟨"account1-7-msg1", "account1", "msg1", "Hi again".toList, "a@x.com",
   "b@x.com", 5, "second version".toList, "INBOX", some .interested,
   some (9/10), some ["looks keen"], none, none⟩

/-- Bounds of the confidence clamp. -/
theorem clamp01_nonneg_le_one (x : ℚ) : 0 ≤ clamp01 x ∧ clamp01 x ≤ 1 := by
  unfold clamp01 jsMax jsMin
  split_ifs <;> constructor <;> linarith

/-- The clamp is the identity on values already inside the unit interval. -/
theorem clamp01_eq_self (x : ℚ) (h0 : 0 ≤ x) (h1 : x ≤ 1) : clamp01 x = x := by
  unfold clamp01 jsMax jsMin
  split_ifs <;> linarith

/-- C5: for fusion input category=Spam with base confidence 0.3,
sentiment=Negative with confidence 0.85, and intent=Informational with
confidence 0.75, `combineModelResults` returns fused confidence exactly
0.45 (= 9/20), and its reasoning list contains the spam-confirmation
string `"Combined analysis confirms spam characteristics"` (the full
output is the base reasoning extended by exactly that string). -/
theorem C5_spam_fusion_value (rs : List String) (e : Email) :
    (combineModelResults ⟨.spam, 3/10, rs⟩ ⟨"Negative", 17/20⟩
        ⟨"Informational", 3/4⟩ e).confidence = 9/20
    ∧ "Combined analysis confirms spam characteristics"
        ∈ (combineModelResults ⟨.spam, 3/10, rs⟩ ⟨"Negative", 17/20⟩
            ⟨"Informational", 3/4⟩ e).reasoning := by
  have h : combineModelResults ⟨.spam, 3/10, rs⟩ ⟨"Negative", 17/20⟩
      ⟨"Informational", 3/4⟩ e
      = ⟨.spam, 9/20, rs ++ ["Combined analysis confirms spam characteristics"]⟩ := by
    simp [combineModelResults, sentimentAdjust, intentAdjust, spamAdjust, jsMin]
    norm_num
  rw [h]
  exact ⟨rfl, by simp⟩

/-- `Math.min a b` is at most `b`. -/
theorem jsMin_le_right (a b : ℚ) : jsMin a b ≤ b := by
  unfold jsMin; split <;> linarith

/-- `Math.max a b` is at least `b`. -/
theorem le_jsMax_right (a b : ℚ) : b ≤ jsMax a b := by
  unfold jsMax; split <;> linarith

/-- Full characterization of the retry loop `catGo`, by induction on the
remaining fuel: the delay list has at most `maxRetries - idx` entries,
every awaited delay corresponds to a rate-limit failure, each delay is
obtained from the previous one by the delay update of the source, and the
returned result is the payload of the first successful attempt or the
terminal Spam fallback. -/
theorem catGo_spec (attempts : Nat → CallOutcome) (jitter : Nat → ℚ) :
    ∀ (fuel idx : Nat) (delayMs : ℚ) (res : AICategorizationResult)
      (ds : List ℚ),
      fuel + idx = maxRetries + 1 → idx ≤ maxRetries →
      catGo attempts jitter fuel idx delayMs = (res, ds) →
      ds.length + idx ≤ maxRetries
      ∧ (∀ k, k < ds.length → ∃ ra, attempts (idx + k) = CallOutcome.rateLimit ra)
      ∧ (∀ k, k < ds.length →
          ds.getD k 0 = nextDelay (if k = 0 then delayMs else ds.getD (k - 1) 0)
            (raOf (attempts (idx + k))) (jitter (idx + k)))
      ∧ (∀ r, attempts (idx + ds.length) = CallOutcome.ok r → res = r)
      ∧ (attempts (idx + ds.length) = CallOutcome.otherError →
          res = processingErrorResult)
      ∧ (∀ ra, attempts (idx + ds.length) = CallOutcome.rateLimit ra →
          idx + ds.length = maxRetries ∧ res = processingErrorResult) := by
  intro fuel
  induction fuel with
  | zero =>
    intro idx delayMs res ds hsum hidx heq
    exfalso
    simp only [maxRetries] at hsum hidx
    omega
  | succ n ih =>
    intro idx delayMs res ds hsum hidx heq
    cases hatt : attempts idx with
    | ok r =>
      simp only [catGo, hatt] at heq
      injection heq with h1 h2
      subst h1; subst h2
      refine ⟨by simpa using hidx, ?_, ?_, ?_, ?_, ?_⟩
      · intro k hk; simp at hk
      · intro k hk; simp at hk
      · intro r' h'
        rw [List.length_nil, Nat.add_zero, hatt] at h'
        injection h'
      · intro h'
        rw [List.length_nil, Nat.add_zero, hatt] at h'
        simp at h'
      · intro ra h'
        rw [List.length_nil, Nat.add_zero, hatt] at h'
        simp at h'
    | rateLimit ra =>
      by_cases hlt : idx < maxRetries
      · cases hrec : catGo attempts jitter n (idx + 1)
            (nextDelay delayMs ra (jitter idx)) with
        | mk res' ds' =>
          simp only [catGo, hatt, if_pos hlt, hrec] at heq
          injection heq with h1 h2
          subst h1; subst h2
          obtain ⟨ih1, ih2, ih3, ih4, ih5, ih6⟩ :=
            ih (idx + 1) (nextDelay delayMs ra (jitter idx)) res' ds'
              (by omega) (by omega) hrec
          refine ⟨by simp only [List.length_cons]; omega, ?_, ?_, ?_, ?_, ?_⟩
          · intro k hk
            cases k with
            | zero => exact ⟨ra, by rwa [Nat.add_zero]⟩
            | succ m =>
              have hm : m < ds'.length := by
                simpa [List.length_cons] using hk
              obtain ⟨ra', h'⟩ := ih2 m hm
              exact ⟨ra', by rwa [show idx + (m + 1) = idx + 1 + m by omega]⟩
          · intro k hk
            cases k with
            | zero =>
              simp [List.getD_cons_zero, hatt, raOf]
            | succ m =>
              have hm : m < ds'.length := by
                simpa [List.length_cons] using hk
              have h3 := ih3 m hm
              rw [show idx + (m + 1) = idx + 1 + m by omega]
              cases m with
              | zero => simpa using h3
              | succ m' => simpa using h3
          · intro r h'
            refine ih4 r ?_
            have hlen : (nextDelay delayMs ra (jitter idx) :: ds').length
                = ds'.length + 1 := rfl
            rw [hlen] at h'
            rwa [show idx + 1 + ds'.length = idx + (ds'.length + 1) by omega]
          · intro h'
            refine ih5 ?_
            have hlen : (nextDelay delayMs ra (jitter idx) :: ds').length
                = ds'.length + 1 := rfl
            rw [hlen] at h'
            rwa [show idx + 1 + ds'.length = idx + (ds'.length + 1) by omega]
          · intro ra' h'
            have hlen : (nextDelay delayMs ra (jitter idx) :: ds').length
                = ds'.length + 1 := rfl
            rw [hlen] at h'
            have h6 := ih6 ra'
              (by rwa [show idx + 1 + ds'.length = idx + (ds'.length + 1) by omega])
            exact ⟨by simp only [List.length_cons]; omega, h6.2⟩
      · simp only [catGo, hatt, if_neg hlt] at heq
        injection heq with h1 h2
        subst h1; subst h2
        refine ⟨by simpa using hidx, ?_, ?_, ?_, ?_, ?_⟩
        · intro k hk; simp at hk
        · intro k hk; simp at hk
        · intro r h'
          rw [List.length_nil, Nat.add_zero, hatt] at h'
          injection h'
        · intro h'
          rw [List.length_nil, Nat.add_zero, hatt] at h'
        · intro ra' h'
          exact ⟨by simp only [List.length_nil, Nat.add_zero]; omega, rfl⟩
    | otherError =>
      simp only [catGo, hatt] at heq
      injection heq with h1 h2
      subst h1; subst h2
      refine ⟨by simpa using hidx, ?_, ?_, ?_, ?_, ?_⟩
      · intro k hk; simp at hk
      · intro k hk; simp at hk
      · intro r h'
        rw [List.length_nil, Nat.add_zero, hatt] at h'
        injection h'
      · intro h'; rfl
      · intro ra h'
        rw [List.length_nil, Nat.add_zero, hatt] at h'
        injection h'

/-- C4: `categorizeEmail` retries only rate-limit failures, at most 3
times; each awaited delay follows the source backoff update
(`nextDelay`, doubling plus jitter capped at 30000 ms starting from the
initial 1000 ms, or `max(current, retryAfter*1000)` when the error names
a retry-after); it honours a named retry-after as a lower bound on the
wait; and it returns (never raises) — the payload of the first successful
attempt, or on a non-rate-limit error or exhausted retries the terminal
Spam fallback whose confidence lies in [0.1, 0.2] and whose reasoning
names the failure mode. -/
theorem C4_retry_policy (attempts : Nat → CallOutcome) (jitter : Nat → ℚ)
    (res : AICategorizationResult) (ds : List ℚ)
    (h : categorizeEmailModel true attempts jitter = (res, ds)) :
    ds.length ≤ 3
    ∧ (∀ k, k < ds.length → ∃ ra, attempts k = CallOutcome.rateLimit ra)
    ∧ (∀ k, k < ds.length →
        ds.getD k 0 = nextDelay (if k = 0 then 1000 else ds.getD (k - 1) 0)
          (raOf (attempts k)) (jitter k))
    ∧ (∀ k, k < ds.length → raOf (attempts k) = none → ds.getD k 0 ≤ 30000)
    ∧ (∀ k s, k < ds.length → raOf (attempts k) = some s →
        s * 1000 ≤ ds.getD k 0)
    ∧ (∀ r, attempts ds.length = CallOutcome.ok r → res = r)
    ∧ (attempts ds.length = CallOutcome.otherError →
        res = processingErrorResult)
    ∧ (∀ ra, attempts ds.length = CallOutcome.rateLimit ra →
        ds.length = 3 ∧ res = processingErrorResult)
    ∧ processingErrorResult.category = EmailCategory.spam
    ∧ 1/10 ≤ processingErrorResult.confidence
    ∧ processingErrorResult.confidence ≤ 1/5
    ∧ processingErrorResult.reasoning = ["AI processing error"] := by
  have h' : catGo attempts jitter (maxRetries + 1) 0 1000 = (res, ds) := by
    simpa [categorizeEmailModel] using h
  obtain ⟨h1, h2, h3, h4, h5, h6⟩ :=
    catGo_spec attempts jitter (maxRetries + 1) 0 1000 res ds rfl
      (by simp [maxRetries]) h'
  simp only [Nat.zero_add] at h1 h2 h3 h4 h5 h6
  refine ⟨by simpa [maxRetries] using h1, h2, h3, ?_, ?_, h4, h5,
    fun ra hra => ⟨by simpa [maxRetries] using (h6 ra hra).1, (h6 ra hra).2⟩,
    rfl, by norm_num [processingErrorResult], by norm_num [processingErrorResult],
    rfl⟩
  · intro k hk hnone
    have := h3 k hk
    rw [this, hnone, nextDelay]
    exact jsMin_le_right _ _
  · intro k s hk hsome
    have := h3 k hk
    rw [this, hsome, nextDelay]
    exact le_jsMax_right _ _

/-- Witness for C4 at a concrete input: a first-attempt non-rate-limit
error produces the terminal fallback immediately, with no retries. -/
theorem C4_retry_policy_witness :
    ((0 : Nat) ≤ 3)
    ∧ categorizeEmailModel true (fun _ => CallOutcome.otherError) (fun _ => 0)
        = (processingErrorResult, []) := by
  refine ⟨?_, rfl⟩
  have h := C4_retry_policy (fun _ => CallOutcome.otherError) (fun _ => 0)
    processingErrorResult [] rfl
  exact h.1

/-- C1: every confidence produced by classification and fusion lies in
[0,1] — (i) any result of `getMainCategory` has clamped confidence in
[0,1] (the defaults included); (ii) `combineModelResults` keeps a base
confidence in [0,1] inside [0,1], however many fusion rules fire, since
every cumulative adjustment is clamped by `Math.min(1, ·)`; (iii) the
whole of `categorizeEmail` yields a confidence in [0,1] whenever the
successful attempts carry fused results with confidence in [0,1] (its
own fallbacks 0.5 / 0.2 / 0.1 all lie in [0,1]). -/
theorem C1_confidence_unit_interval :
    (∀ (text : List Char) (parse : List Char → Option ParsedMain)
        (m : AICategorizationResult), getMainCategory text parse = some m →
        0 ≤ m.confidence ∧ m.confidence ≤ 1)
    ∧ (∀ (m : AICategorizationResult) (s : SentimentResult) (i : IntentResult)
        (e : Email), 0 ≤ m.confidence → m.confidence ≤ 1 →
        0 ≤ (combineModelResults m s i e).confidence
        ∧ (combineModelResults m s i e).confidence ≤ 1)
    ∧ (∀ (validKey : Bool) (attempts : Nat → CallOutcome) (jitter : Nat → ℚ),
        (∀ k r, attempts k = CallOutcome.ok r →
          0 ≤ r.confidence ∧ r.confidence ≤ 1) →
        0 ≤ (categorizeEmailModel validKey attempts jitter).1.confidence
        ∧ (categorizeEmailModel validKey attempts jitter).1.confidence ≤ 1) := by
  refine ⟨?_, ?_, ?_⟩
  · intro text parse m hm
    unfold getMainCategory at hm
    cases hex : extractJson text with
    | none =>
      simp only [hex] at hm
      obtain rfl := Option.some.inj hm
      norm_num [mainCategoryDefault]
    | some js =>
      simp only [hex] at hm
      cases hp : parse js with
      | none => simp only [hp] at hm; exact Option.noConfusion hm
      | some p =>
        simp only [hp] at hm
        cases hc : categoryOfString p.category with
        | none =>
          simp only [hc] at hm
          obtain rfl := Option.some.inj hm
          norm_num [mainCategoryDefault]
        | some c =>
          simp only [hc] at hm
          obtain rfl := Option.some.inj hm
          exact clamp01_nonneg_le_one _
  · intro m s i e h0 h1
    have hb1 : 0 ≤ (sentimentAdjust m s).1 ∧ (sentimentAdjust m s).1 ≤ 1 := by
      unfold sentimentAdjust jsMin
      split_ifs <;> constructor <;> dsimp only <;> linarith
    have hb2 : 0 ≤ (intentAdjust m i (sentimentAdjust m s)).1
        ∧ (intentAdjust m i (sentimentAdjust m s)).1 ≤ 1 := by
      unfold intentAdjust jsMin
      split_ifs <;> constructor <;> dsimp only <;> linarith [hb1.1, hb1.2]
    have hb3 : 0 ≤ (spamAdjust m s i (intentAdjust m i (sentimentAdjust m s))).1
        ∧ (spamAdjust m s i (intentAdjust m i (sentimentAdjust m s))).1 ≤ 1 := by
      unfold spamAdjust jsMin
      split_ifs <;> constructor <;> dsimp only <;> linarith [hb2.1, hb2.2]
    exact hb3
  · intro validKey attempts jitter hok
    cases validKey with
    | false =>
      constructor <;> norm_num [categorizeEmailModel]
    | true =>
      cases hrun : categorizeEmailModel true attempts jitter with
      | mk res ds =>
        have h' : catGo attempts jitter (maxRetries + 1) 0 1000 = (res, ds) := by
          simpa [categorizeEmailModel] using hrun
        obtain ⟨_, _, _, h4, h5, h6⟩ :=
          catGo_spec attempts jitter (maxRetries + 1) 0 1000 res ds rfl
            (by simp [maxRetries]) h'
        show 0 ≤ res.confidence ∧ res.confidence ≤ 1
        cases hterm : attempts (0 + ds.length) with
        | ok r =>
          have hres := h4 r hterm
          rw [hres]
          exact hok _ r hterm
        | rateLimit ra =>
          have hres := (h6 ra hterm).2
          rw [hres]
          constructor <;> norm_num [processingErrorResult]
        | otherError =>
          have hres := h5 hterm
          rw [hres]
          constructor <;> norm_num [processingErrorResult]

/-- Witness for C1 at concrete inputs: the malformed-response default of
the main parser and a concrete fusion both stay inside [0,1]. -/
theorem C1_confidence_unit_interval_witness :
    (0 ≤ mainCategoryDefault.confidence ∧ mainCategoryDefault.confidence ≤ 1)
    ∧ (0 ≤ (combineModelResults ⟨.spam, 3/10, []⟩ ⟨"Neutral", 1/2⟩
          ⟨"Informational", 1/2⟩ sampleEmail).confidence
       ∧ (combineModelResults ⟨.spam, 3/10, []⟩ ⟨"Neutral", 1/2⟩
          ⟨"Informational", 1/2⟩ sampleEmail).confidence ≤ 1) := by
  constructor
  · exact C1_confidence_unit_interval.1 "no braces".toList (fun _ => none)
      mainCategoryDefault (by simp [getMainCategory, extractJson, lastIndexOf])
  · exact C1_confidence_unit_interval.2.1 ⟨.spam, 3/10, []⟩ ⟨"Neutral", 1/2⟩
      ⟨"Informational", 1/2⟩ sampleEmail (by norm_num) (by norm_num)

/-- C3 (amended): a model response failing the defensive brace extraction
gets the safe default of each parser (category Spam/0.3 with reasoning
`"Invalid AI response format"`; sentiment Neutral/0.5; intent
Informational/0.5), and a parsed category string outside the closed
enumeration also gets the Spam/0.3 default; but sentiment and intent
values are NOT validated against their enumerations — they pass through
unchanged (with clamped confidence).  With all three responses
malformed, classify returns exactly Spam/0.3 with reasoning
`["Invalid AI response format"]`. -/
theorem C3_parse_fallbacks (text : List Char)
    (pm : List Char → Option ParsedMain)
    (ps : List Char → Option ParsedSentiment)
    (pq : List Char → Option ParsedIntent) :
    (extractJson text = none →
      getMainCategory text pm = some mainCategoryDefault
      ∧ getSentimentAnalysis text ps = some ⟨"Neutral", 1/2⟩
      ∧ getIntentClassification text pq = some ⟨"Informational", 1/2⟩)
    ∧ (∀ js p, extractJson text = some js → pm js = some p →
        categoryOfString p.category = none →
        getMainCategory text pm = some mainCategoryDefault)
    ∧ (∀ js p, extractJson text = some js → ps js = some p →
        getSentimentAnalysis text ps = some ⟨p.sentiment, clamp01 p.confidence⟩)
    ∧ (∀ js p, extractJson text = some js → pq js = some p →
        getIntentClassification text pq = some ⟨p.intent, clamp01 p.confidence⟩)
    ∧ (∀ e, combineModelResults mainCategoryDefault ⟨"Neutral", 1/2⟩
        ⟨"Informational", 1/2⟩ e = mainCategoryDefault) := by
  refine ⟨?_, ?_, ?_, ?_, ?_⟩
  · intro hex
    refine ⟨?_, ?_, ?_⟩ <;>
      simp [getMainCategory, getSentimentAnalysis, getIntentClassification, hex]
  · intro js p hex hp hc
    simp [getMainCategory, hex, hp, hc]
  · intro js p hex hp
    simp [getSentimentAnalysis, hex, hp]
  · intro js p hex hp
    simp [getIntentClassification, hex, hp]
  · intro e
    simp [combineModelResults, sentimentAdjust, intentAdjust, spamAdjust,
      mainCategoryDefault]

/-- Witness for C3 at a concrete malformed response (no brace pair) and a
concrete out-of-enumeration category string. -/
theorem C3_parse_fallbacks_witness :
    getMainCategory "Sorry, I cannot help.".toList (fun _ => none)
      = some mainCategoryDefault
    ∧ getMainCategory ['\x7b', 'a', '\x7d']
        (fun _ => some ⟨"Promotional", 7/10, none⟩) = some mainCategoryDefault := by
  constructor
  · exact (C3_parse_fallbacks "Sorry, I cannot help.".toList (fun _ => none)
      (fun _ => none) (fun _ => none)).1 (by decide) |>.1
  · exact (C3_parse_fallbacks ['\x7b', 'a', '\x7d']
      (fun _ => some ⟨"Promotional", 7/10, none⟩) (fun _ => none)
      (fun _ => none)).2.1 ['\x7b', 'a', '\x7d'] ⟨"Promotional", 7/10, none⟩
      (by decide) rfl (by decide)

/-- Counterexample to C3 as stated: a sentiment value outside the closed
enumeration is not replaced by any safe default — `getSentimentAnalysis`
passes it through unchanged. -/
theorem C3_counterexample :
    getSentimentAnalysis ['\x7b', 'a', '\x7d'] (fun _ => some ⟨"Hostile", 9/10⟩)
      = some ⟨"Hostile", 9/10⟩
    ∧ "Hostile" ∉ sentimentLabels
    ∧ getSentimentAnalysis ['\x7b', 'a', '\x7d'] (fun _ => some ⟨"Hostile", 9/10⟩)
      ≠ some ⟨"Neutral", 1/2⟩ := by
  have hval : getSentimentAnalysis ['\x7b', 'a', '\x7d']
      (fun _ => some ⟨"Hostile", 9/10⟩) = some ⟨"Hostile", clamp01 (9/10)⟩ := by
    have hex : extractJson ['\x7b', 'a', '\x7d'] = some ['\x7b', 'a', '\x7d'] := by
      decide
    simp [getSentimentAnalysis, hex]
  rw [hval, clamp01_eq_self (9/10) (by norm_num) (by norm_num)]
  refine ⟨rfl, by decide, by simp⟩

/-- One `checkRateLimit` call never pushes the counter above the limit. -/
theorem checkRateLimit_step_le (s : RateState) (now : ℚ)
    (h : s.requestCount ≤ requestLimit) :
    (checkRateLimit s now).1.requestCount ≤ requestLimit := by
  unfold checkRateLimit
  dsimp only
  split_ifs <;> simp_all [requestLimit]
  omega

/-- C7: the governor admits at most 15 requests per window — starting
from the initial state, after any sequence of `checkRateLimit` calls the
request counter is at most `requestLimit` = 15; every call returns
`true` (callers are never rejected); and a caller arriving with the
budget exhausted inside the current window is delayed by exactly the
time remaining in the window, resuming with the counter reset to 1 at
the instant the window ends (`lastRequestTime + requestWindow`). -/
theorem C7_rate_governor :
    (∀ times : List ℚ,
      (times.foldl (fun s t => (checkRateLimit s t).1) ⟨0, 0⟩).requestCount
        ≤ requestLimit)
    ∧ (∀ (s : RateState) (now : ℚ), (checkRateLimit s now).2.2 = true)
    ∧ (∀ (s : RateState) (now : ℚ),
        s.requestCount = requestLimit →
        0 ≤ now - s.lastRequestTime →
        now - s.lastRequestTime < requestWindow →
        (checkRateLimit s now).2.1 = requestWindow - (now - s.lastRequestTime)
        ∧ 0 < (checkRateLimit s now).2.1
        ∧ (checkRateLimit s now).1.requestCount = 1
        ∧ (checkRateLimit s now).1.lastRequestTime
            = s.lastRequestTime + requestWindow) := by
  refine ⟨?_, ?_, ?_⟩
  · intro times
    have hgen : ∀ (l : List ℚ) (s : RateState), s.requestCount ≤ requestLimit →
        (l.foldl (fun s t => (checkRateLimit s t).1) s).requestCount
          ≤ requestLimit := by
      intro l
      induction l with
      | nil => intro s hs; exact hs
      | cons t rest ih =>
        intro s hs
        exact ih _ (checkRateLimit_step_le s t hs)
    exact hgen times ⟨0, 0⟩ (by norm_num [requestLimit])
  · intro s now
    unfold checkRateLimit
    dsimp only
    split_ifs <;> rfl
  · intro s now hcount h0 hwin
    have hnoreset : ¬ requestWindow < now - s.lastRequestTime := by linarith
    have hfull : ¬ s.requestCount < requestLimit := by omega
    have hwait : 0 < requestWindow - (now - s.lastRequestTime) := by linarith
    unfold checkRateLimit
    rw [if_neg hnoreset, if_neg hfull, if_pos hwait]
    refine ⟨rfl, hwait, rfl, by ring⟩

/-- Witness for C7 at a concrete exhausted-budget state: a caller at 1000
ms into the window with the counter at 15 waits 59000 ms. -/
theorem C7_rate_governor_witness :
    (checkRateLimit ⟨15, 0⟩ 1000).2.1 = 59000
    ∧ (checkRateLimit ⟨15, 0⟩ 1000).1.requestCount = 1
    ∧ (checkRateLimit ⟨15, 0⟩ 1000).1.lastRequestTime = 60000 := by
  have h := C7_rate_governor.2.2 ⟨15, 0⟩ 1000 (by norm_num [requestLimit])
    (by norm_num) (by norm_num [requestWindow])
  refine ⟨?_, h.2.2.1, ?_⟩
  · rw [h.1]; norm_num [requestWindow]
  · rw [h.2.2.2]; norm_num [requestWindow]

/-- A found last index is in range and points at the sought character. -/
theorem lastIndexOf_some (c d : Char) :
    ∀ (l : List Char) (i : Nat), lastIndexOf c l = some i →
      i < l.length ∧ l.getD i d = c := by
  intro l
  induction l with
  | nil => intro i h; simp [lastIndexOf] at h
  | cons x xs ih =>
    intro i h
    unfold lastIndexOf at h
    cases hrec : lastIndexOf c xs with
    | some j =>
      rw [hrec] at h
      obtain rfl := Option.some.inj h
      have hj := ih j hrec
      refine ⟨by simp only [List.length_cons]; omega, by simpa using hj.2⟩
    | none =>
      rw [hrec] at h
      by_cases hx : x = c
      · rw [if_pos hx] at h
        obtain rfl := Option.some.inj h
        exact ⟨by simp, by simpa using hx⟩
      · rw [if_neg hx] at h
        exact Option.noConfusion h

/-- When no last index is found, the character occurs nowhere. -/
theorem lastIndexOf_none (c d : Char) :
    ∀ (l : List Char), lastIndexOf c l = none →
      ∀ j, j < l.length → l.getD j d ≠ c := by
  intro l
  induction l with
  | nil => intro _ j hj; simp at hj
  | cons x xs ih =>
    intro h j hj
    unfold lastIndexOf at h
    cases hrec : lastIndexOf c xs with
    | some k => rw [hrec] at h; exact Option.noConfusion h
    | none =>
      rw [hrec] at h
      by_cases hx : x = c
      · rw [if_pos hx] at h; exact Option.noConfusion h
      · cases j with
        | zero => simpa using hx
        | succ m =>
          have hm : m < xs.length := by
            simp only [List.length_cons] at hj; omega
          simpa using ih hrec m hm

/-- The found last index is maximal: no later position holds the sought
character. -/
theorem lastIndexOf_max (c d : Char) :
    ∀ (l : List Char) (i : Nat), lastIndexOf c l = some i →
      ∀ j, i < j → j < l.length → l.getD j d ≠ c := by
  intro l
  induction l with
  | nil => intro i h; simp [lastIndexOf] at h
  | cons x xs ih =>
    intro i h j hij hj
    unfold lastIndexOf at h
    cases hrec : lastIndexOf c xs with
    | some k =>
      rw [hrec] at h
      obtain rfl := Option.some.inj h
      cases j with
      | zero => omega
      | succ m =>
        have hm : m < xs.length := by
          simp only [List.length_cons] at hj; omega
        simpa using ih k hrec m (by omega) hm
    | none =>
      rw [hrec] at h
      by_cases hx : x = c
      · rw [if_pos hx] at h
        obtain rfl := Option.some.inj h
        cases j with
        | zero => omega
        | succ m =>
          have hm : m < xs.length := by
            simp only [List.length_cons] at hj; omega
          simpa using lastIndexOf_none c d xs hrec m hm
      · rw [if_neg hx] at h
        exact Option.noConfusion h

/-- `getD` commutes with `take` inside the taken range. -/
theorem getD_take (d : Char) :
    ∀ (l : List Char) (n i : Nat), i < n → (l.take n).getD i d = l.getD i d := by
  intro l
  induction l with
  | nil => intro n i _; simp
  | cons x xs ih =>
    intro n i h
    cases n with
    | zero => omega
    | succ m =>
      cases i with
      | zero => simp
      | succ k =>
        simp only [List.take_succ_cons, List.getD_cons_succ]
        exact ih m k (by omega)

/-- C8 (amended): the local summarization fallback returns the combined
`subject + ". " + body` unchanged when it is at most 100 characters.
When it is longer and its 100-character prefix contains a space at a
positive index, the result is a prefix of fewer than 100 characters cut
at the last such space (so it ends at a word boundary: the next content
character is a space) followed by the ellipsis.  When the 100-character
prefix has no space at a positive index, the raw 100-character prefix is
kept before the ellipsis (no word-boundary cut is possible). -/
theorem C8_simpleSummarize (subject body : List Char) :
    ((contentOf subject body).length ≤ 100 →
      simpleSummarize body subject = contentOf subject body)
    ∧ (100 < (contentOf subject body).length →
        (∃ j, 0 < j ∧ j < 100 ∧ (contentOf subject body).getD j ' ' = ' ') →
        ∃ i, 0 < i ∧ i < 100
          ∧ simpleSummarize body subject
              = (contentOf subject body).take i ++ ellipsis
          ∧ (contentOf subject body).getD i ' ' = ' ')
    ∧ (100 < (contentOf subject body).length →
        (∀ j, 0 < j → j < 100 → (contentOf subject body).getD j ' ' ≠ ' ') →
        simpleSummarize body subject
          = (contentOf subject body).take 100 ++ ellipsis) := by
  refine ⟨?_, ?_, ?_⟩
  · intro h
    unfold simpleSummarize
    dsimp only
    rw [if_pos h]
  · intro hlen hex
    obtain ⟨j, hj0, hj100, hsp⟩ := hex
    have hsumlen : ((contentOf subject body).take 100).length = 100 := by
      simp only [List.length_take]
      omega
    have hspsum : ((contentOf subject body).take 100).getD j ' ' = ' ' := by
      rw [getD_take ' ' (contentOf subject body) 100 j hj100]
      exact hsp
    cases hli : lastIndexOf ' ' ((contentOf subject body).take 100) with
    | none =>
      exact absurd hspsum
        (lastIndexOf_none ' ' ' ' _ hli j (by omega))
    | some i =>
      obtain ⟨hilt, hich⟩ := lastIndexOf_some ' ' ' ' _ i hli
      rw [hsumlen] at hilt
      have hi0 : 0 < i := by
        by_contra h0
        have hieq : i = 0 := by omega
        subst hieq
        exact lastIndexOf_max ' ' ' ' _ 0 hli j hj0 (by omega) hspsum
      refine ⟨i, hi0, hilt, ?_, ?_⟩
      · unfold simpleSummarize
        dsimp only
        rw [if_neg (by omega), hli]
        dsimp only
        rw [if_pos hi0, List.take_take]
        congr 2
        omega
      · rw [getD_take ' ' (contentOf subject body) 100 i hilt] at hich
        exact hich
  · intro hlen hno
    cases hli : lastIndexOf ' ' ((contentOf subject body).take 100) with
    | none =>
      unfold simpleSummarize
      dsimp only
      rw [if_neg (by omega), hli]
    | some i' =>
      have hsumlen : ((contentOf subject body).take 100).length = 100 := by
        simp only [List.length_take]
        omega
      obtain ⟨hilt, hich⟩ := lastIndexOf_some ' ' ' ' _ i' hli
      rw [hsumlen] at hilt
      have hi0 : i' = 0 := by
        by_contra h0
        have hpos : 0 < i' := by omega
        have := hno i' hpos hilt
        rw [getD_take ' ' (contentOf subject body) 100 i' hilt] at hich
        exact this hich
      subst hi0
      unfold simpleSummarize
      dsimp only
      rw [if_neg (by omega), hli]
      dsimp only
      rw [if_neg (by omega)]

/-- Witness for C8 at a concrete subject/body whose combined content
exceeds 100 characters: the fallback yields a sub-100-character prefix
ending at a word boundary, followed by the ellipsis. -/
theorem C8_simpleSummarize_witness :
    ∃ i, 0 < i ∧ i < 100
      ∧ simpleSummarize
          "Hello world, let us meet tomorrow at noon to discuss the proposal in detail and the budget plan".toList
          "Meeting".toList
        = (contentOf "Meeting".toList
            "Hello world, let us meet tomorrow at noon to discuss the proposal in detail and the budget plan".toList).take i
          ++ ellipsis
      ∧ (contentOf "Meeting".toList
          "Hello world, let us meet tomorrow at noon to discuss the proposal in detail and the budget plan".toList).getD i ' '
        = ' ' := by
  exact (C8_simpleSummarize "Meeting".toList
      "Hello world, let us meet tomorrow at noon to discuss the proposal in detail and the budget plan".toList).2.1
    (by decide) ⟨8, by decide, by decide, by decide⟩

/-- Counterexample to C8 as stated: when the 100-character prefix contains
no space, the result is not a prefix ending at a word boundary — the cut
falls mid-word (here inside a 101-character run of `a`). -/
theorem C8_counterexample :
    ¬ ∃ i, i ≤ 100
      ∧ simpleSummarize ([] : List Char) (List.replicate 101 'a')
          = (contentOf (List.replicate 101 'a') []).take i ++ ellipsis
      ∧ (contentOf (List.replicate 101 'a') []).getD i ' ' = ' ' := by
  rintro ⟨i, hle, heq, hsp⟩
  have hL := congrArg List.length heq
  have hLHS : (simpleSummarize ([] : List Char) (List.replicate 101 'a')).length
      = 103 := by decide
  have hclen : (contentOf (List.replicate 101 'a') []).length = 103 := by decide
  rw [hLHS, List.length_append, List.length_take, hclen] at hL
  have hieq : i = 100 := by
    simp only [ellipsis, List.length_cons, List.length_nil] at hL
    omega
  subst hieq
  revert hsp
  decide

/-- C2: the three reconciliation jobs are mutually exclusive through the
shared busy flag — invoked with the flag set, each returns immediately
with the store untouched and zero items processed, whatever the fetch
outcome or the per-item behaviour would have been; and every invocation
that does run (flag clear) ends with the flag clear, on the success path
and on the job-level failure path alike (the `finally` cleanup). -/
theorem C2_busy_flag (es : EsState) (fetched : Except Unit (List Email))
    (categorize : Email → Except Unit AICategorizationResult)
    (summarizer : Email → Except Unit (List Char)) (threshold : ℚ)
    (b1 b2 b3 : Nat) :
    processUncategorizedEmails true es fetched categorize b1 = (true, es, 0)
    ∧ reprocessLowConfidenceEmails true es fetched categorize threshold b2
        = (true, es, 0)
    ∧ generateMissingSummaries true es fetched summarizer b3 = (true, es, 0)
    ∧ (processUncategorizedEmails false es fetched categorize b1).1 = false
    ∧ (reprocessLowConfidenceEmails false es fetched categorize threshold b2).1
        = false
    ∧ (generateMissingSummaries false es fetched summarizer b3).1 = false := by
  refine ⟨rfl, rfl, rfl, ?_, ?_, ?_⟩ <;> cases fetched <;> rfl

/-- C6: every index-projector operation invoked while the connected flag
is false is a no-op returning the well-typed empty/default result:
search returns `[]`, point lookup returns `none`, and upsert, both
partial updates and index initialization leave the state unchanged. -/
theorem C6_disconnected_noops (ic : Bool) (docs : List (String × Email))
    (clientResp : Except Unit (List Email)) (id : String) (e : Email)
    (cat : EmailCategory) (conf : ℚ) (reasoning : List String)
    (summ : List Char) :
    searchEmails ⟨false, ic, docs⟩ clientResp = []
    ∧ getEmailById ⟨false, ic, docs⟩ id = none
    ∧ indexEmail ⟨false, ic, docs⟩ e = ⟨false, ic, docs⟩
    ∧ updateEmailAIResults ⟨false, ic, docs⟩ id cat conf reasoning
        = ⟨false, ic, docs⟩
    ∧ updateEmailSummary ⟨false, ic, docs⟩ id summ = ⟨false, ic, docs⟩
    ∧ initIndex ⟨false, ic, docs⟩ = ⟨false, ic, docs⟩ := by
  refine ⟨rfl, rfl, rfl, rfl, rfl, rfl⟩

/-- An id absent from the keys is counted zero times. -/
theorem countId_eq_zero_of_not_mem (i : String) :
    ∀ docs : List (String × Email), i ∉ docs.map Prod.fst →
      countId docs i = 0 := by
  intro docs
  induction docs with
  | nil => intro _; rfl
  | cons p rest ih =>
    intro h
    simp only [List.map_cons, List.mem_cons] at h
    push_neg at h
    have hne : ¬ p.1 = i := fun hc => h.1 hc.symm
    unfold countId
    rw [List.filter_cons]
    simp only [decide_eq_true_eq, eq_false hne, if_false]
    exact ih h.2

/-- Every id stored after an upsert is the upserted id or was stored
before. -/
theorem mem_upsertDoc_keys (i : String) (e : Email) :
    ∀ (docs : List (String × Email)) (k : String),
      k ∈ (upsertDoc docs i e).map Prod.fst →
      k = i ∨ k ∈ docs.map Prod.fst := by
  intro docs
  induction docs with
  | nil =>
    intro k hk
    simp [upsertDoc] at hk
    exact Or.inl hk
  | cons p rest ih =>
    intro k hk
    by_cases hp : p.1 = i
    · rw [upsertDoc, if_pos hp] at hk
      simp only [List.map_cons, List.mem_cons] at hk
      rcases hk with hk | hk
      · exact Or.inl hk
      · exact Or.inr (by simp [List.mem_cons, hk])
    · rw [upsertDoc, if_neg hp] at hk
      simp only [List.map_cons, List.mem_cons] at hk
      rcases hk with hk | hk
      · exact Or.inr (by simp [hk])
      · rcases ih k hk with h | h
        · exact Or.inl h
        · exact Or.inr (by simp [List.mem_cons, h])

/-- Upserting preserves distinctness of the stored ids. -/
theorem upsertDoc_keysNodup (i : String) (e : Email) :
    ∀ docs : List (String × Email), keysNodup docs →
      keysNodup (upsertDoc docs i e) := by
  intro docs
  induction docs with
  | nil => intro _; simp [upsertDoc, keysNodup]
  | cons p rest ih =>
    intro h
    unfold keysNodup at h
    simp only [List.map_cons, List.nodup_cons] at h
    by_cases hp : p.1 = i
    · rw [upsertDoc, if_pos hp]
      unfold keysNodup
      simp only [List.map_cons, List.nodup_cons]
      exact ⟨by rw [← hp]; exact h.1, h.2⟩
    · rw [upsertDoc, if_neg hp]
      unfold keysNodup
      simp only [List.map_cons, List.nodup_cons]
      refine ⟨?_, ih h.2⟩
      intro hmem
      rcases mem_upsertDoc_keys i e rest p.1 hmem with hx | hx
      · exact hp hx
      · exact h.1 hx

/-- After an upsert the store holds exactly one document with the
upserted id. -/
theorem countId_upsertDoc (i : String) (e : Email) :
    ∀ docs : List (String × Email), keysNodup docs →
      countId (upsertDoc docs i e) i = 1 := by
  intro docs
  induction docs with
  | nil => intro _; simp [upsertDoc, countId, List.filter_cons]
  | cons p rest ih =>
    intro h
    unfold keysNodup at h
    simp only [List.map_cons, List.nodup_cons] at h
    by_cases hp : p.1 = i
    · rw [upsertDoc, if_pos hp]
      unfold countId
      rw [List.filter_cons]
      simp only [decide_eq_true_eq, eq_self_iff_true, if_true, List.length_cons]
      have hni : i ∉ rest.map Prod.fst := by rw [← hp]; exact h.1
      have := countId_eq_zero_of_not_mem i rest hni
      unfold countId at this
      rw [this]
    · rw [upsertDoc, if_neg hp]
      unfold countId
      rw [List.filter_cons]
      simp only [decide_eq_true_eq, eq_false hp, if_false]
      exact ih h.2

/-- After an upsert a point lookup on the upserted id yields the new
document. -/
theorem lookupId_upsertDoc (i : String) (e : Email) :
    ∀ docs : List (String × Email), lookupId (upsertDoc docs i e) i = some e := by
  intro docs
  induction docs with
  | nil => simp [upsertDoc, lookupId, List.find?]
  | cons p rest ih =>
    by_cases hp : p.1 = i
    · rw [upsertDoc, if_pos hp]
      simp [lookupId, List.find?]
    · rw [upsertDoc, if_neg hp]
      unfold lookupId at ih ⊢
      simp only [List.find?_cons, decide_eq_false hp]
      exact ih

/-- C9 (amended): the normalizer identifier is derived purely from
message content (account id + sequence + message id) whenever the parsed
message id is non-empty — parsing the same raw message at different
times then yields the same identifier; a missing/empty message id falls
back to the current timestamp, so only messages bearing a message id are
stably re-ingestable.  Upserting a document with the same id twice into
a connected index with distinct stored ids leaves exactly one document
bearing that id, holding the latest field values. -/
theorem C9_idempotent_ingestion :
    (∀ (acc : String) (seq : Nat) (mid : String) (t1 t2 : Nat), mid ≠ "" →
      makeEmailId acc seq mid t1 = makeEmailId acc seq mid t2)
    ∧ (∀ (st : EsState) (e1 e2 : Email), st.isConnected = true →
        keysNodup st.docs → e2.id = e1.id →
        countId (indexEmail (indexEmail st e1) e2).docs e1.id = 1
        ∧ getEmailById (indexEmail (indexEmail st e1) e2) e1.id = some e2) := by
  constructor
  · intro acc seq mid t1 t2 hmid
    unfold makeEmailId
    rw [if_neg hmid, if_neg hmid]
  · intro st e1 e2 hconn hnodup hid
    have hc1 : (indexEmail st e1).isConnected = true := by
      simp [indexEmail, hconn]
    have hdocs2 : (indexEmail (indexEmail st e1) e2).docs
        = upsertDoc (upsertDoc st.docs e1.id e1) e2.id e2 := by
      simp [indexEmail, hconn]
    have hc2 : (indexEmail (indexEmail st e1) e2).isConnected = true := by
      simp [indexEmail, hconn]
    have hnodup1 : keysNodup (upsertDoc st.docs e1.id e1) :=
      upsertDoc_keysNodup e1.id e1 st.docs hnodup
    constructor
    · rw [hdocs2, hid]
      exact countId_upsertDoc e1.id e2 _ hnodup1
    · unfold getEmailById
      rw [hdocs2, hid]
      simp only [hc2]
      simp [lookupId_upsertDoc]

/-- Witness for C9 at concrete values: a non-empty message id gives a
time-independent identifier, and two upserts of the same id leave one
latest-valued document. -/
theorem C9_idempotent_ingestion_witness :
    makeEmailId "account1" 7 "msg1" 1000 = makeEmailId "account1" 7 "msg1" 2000
    ∧ countId (indexEmail (indexEmail ⟨true, true, []⟩ sampleEmail)
        sampleEmail2).docs sampleEmail.id = 1
    ∧ getEmailById (indexEmail (indexEmail ⟨true, true, []⟩ sampleEmail)
        sampleEmail2) sampleEmail.id = some sampleEmail2 := by
  refine ⟨?_, ?_, ?_⟩
  · exact C9_idempotent_ingestion.1 "account1" 7 "msg1" 1000 2000 (by decide)
  · exact (C9_idempotent_ingestion.2 ⟨true, true, []⟩ sampleEmail sampleEmail2
      rfl (by simp [keysNodup]) rfl).1
  · exact (C9_idempotent_ingestion.2 ⟨true, true, []⟩ sampleEmail sampleEmail2
      rfl (by simp [keysNodup]) rfl).2

/-- Counterexample to C9 as stated: with an absent/empty parsed message
id, the identifier is derived from the current timestamp, not purely
from message content — re-parsing at a later time yields a different
identifier. -/
theorem C9_counterexample :
    makeEmailId "account1" 7 "" 1000 ≠ makeEmailId "account1" 7 "" 2000 := by
  decide

/-- C10: the feedback endpoint rejects an out-of-enumeration corrected
category with HTTP 400 before anything is appended to the log; an
accepted submission appends exactly one record, retaining the subject
of the email and the first 500 characters of its body. -/
theorem C10_feedback_validation :
    (∀ (id cat : String) (lookup : Option Email) (ts : String)
        (log : List FeedbackRecord), categoryOfString cat = none →
        feedbackEndpoint id cat lookup ts log = (400, log))
    ∧ (∀ (id cat : String) (c : EmailCategory) (email : Email) (ts : String)
        (log : List FeedbackRecord), categoryOfString cat = some c →
        feedbackEndpoint id cat (some email) ts log
          = (200, log ++ [⟨id, email.aiCategory.getD .spam, c, ts,
              email.subject, email.body.take 500⟩])
        ∧ (feedbackEndpoint id cat (some email) ts log).2.length
            = log.length + 1) := by
  constructor
  · intro id cat lookup ts log hcat
    unfold feedbackEndpoint
    rw [hcat]
  · intro id cat c email ts log hcat
    constructor
    · unfold feedbackEndpoint
      rw [hcat]
      rfl
    · unfold feedbackEndpoint
      rw [hcat]
      simp [processUserFeedback]

/-- Witness for C10 at concrete inputs: the out-of-enumeration string
`"Garbage"` is rejected with 400 and an untouched log; the valid
`"Interested"` string appends exactly one record. -/
theorem C10_feedback_validation_witness :
    feedbackEndpoint "id1" "Garbage" (some sampleEmail) "t0" [] = (400, [])
    ∧ feedbackEndpoint "id1" "Interested" (some sampleEmail) "t0" []
        = (200, [⟨"id1", .spam, .interested, "t0", sampleEmail.subject,
            sampleEmail.body.take 500⟩]) := by
  constructor
  · exact C10_feedback_validation.1 "id1" "Garbage" (some sampleEmail) "t0" []
      (by decide)
  · exact (C10_feedback_validation.2 "id1" "Interested" .interested sampleEmail
      "t0" [] (by decide)).1
